import Mathlib

/-!
Shallow embedding of the graph-game repository: the score ledger and
leaderboard logic of `backend/server.js`, and the 3×3 puzzle state machine of
`frontend/src/App.js`.  Persistent storage is modelled as an explicit list of
score documents threaded through each handler; timestamps are modelled as
integers.  The submitted move count is modelled as an integer where only its
ordering matters, and as an exact rational where the full JSON number domain
is what a claim is about.
-/

namespace GraphGame

/-- A stored score document (the `Score` collection in `server.js`): one per
player, holding the best move count and its completion timestamp. -/
structure ScoreRecord where
  userId : Nat
  moves : Int
  completedAt : Int
deriving DecidableEq, Repr

/-- Response body of a score submission (the `score` field of the JSON reply
of `POST /api/scores`). -/
structure ScoreResp where
  moves : Int
  completedAt : Int
  improved : Bool
deriving DecidableEq, Repr

/-- Outcome of `POST /api/scores`: 400 validation failure, 404 unknown user,
or a success reply. -/
inductive SubmitResult where
  | validationError
  | notFound
  | ok (resp : ScoreResp)
deriving DecidableEq, Repr

/-- In-place update of the found score document
(`existingScore.moves = moves; existingScore.completedAt = new Date(); save()`
in `server.js`): replace the first document whose `userId` matches. -/
def updateFirst : List ScoreRecord → Nat → Int → Int → List ScoreRecord
  | [], _, _, _ => []
  | r :: rs, uid, m, t =>
    if r.userId = uid then { r with moves := m, completedAt := t } :: rs
    else r :: updateFirst rs uid m t

/-- Handler of `POST /api/scores` in `server.js`, with the `moves` payload
viewed as an integer.  `users` is the set of registered user ids, `store`
the score collection, `now` the current timestamp.  The guard
`!moves || moves < 1` is `moves = 0 ∨ moves < 1` (`0` is falsy).  See
`submitScoreQ` for the same handler over the full JSON number domain. -/
def submitScore (users : List Nat) (store : List ScoreRecord) (uid : Nat)
    (moves : Int) (now : Int) : SubmitResult × List ScoreRecord :=
  if moves = 0 ∨ moves < 1 then (.validationError, store)
  else if uid ∉ users then (.notFound, store)
  else
    match store.find? (fun r => r.userId == uid) with
    | some existingScore =>
      if moves < existingScore.moves then
        (.ok ⟨moves, now, true⟩, updateFirst store uid moves now)
      else
        (.ok ⟨existingScore.moves, existingScore.completedAt, false⟩, store)
    | none => (.ok ⟨moves, now, true⟩, store ++ [⟨uid, moves, now⟩])

theorem find?_updateFirst (store : List ScoreRecord) (uid : Nat) (m t : Int)
    (ex : ScoreRecord) (h : store.find? (fun r => r.userId == uid) = some ex) :
    (updateFirst store uid m t).find? (fun r => r.userId == uid) = some ⟨uid, m, t⟩ := by
  induction store with
  | nil => simp at h
  | cons r rs ih =>
    by_cases hr : r.userId = uid
    · simp [updateFirst, hr]
    · have hb : (r.userId == uid) = false := by simp [hr]
      rw [List.find?_cons_of_neg _ (by simp [hr])] at h
      rw [updateFirst, if_neg hr, List.find?_cons_of_neg _ (by simp [hr])]
      exact ih h

/-- C1.  `submitScore` with `moves ≥ 1` and a registered player: with no
existing record, a record with the given moves and timestamp is created and
`{moves, completedAt, improved: true}` returned; with an existing record and
`moves <` its moves, the record is updated in place (new moves, new
timestamp) and `{moves, completedAt, improved: true}` returned; with
`moves ≥` its moves, the store is left completely unchanged and the existing
`{moves, completedAt, improved: false}` is returned. -/
theorem C1_submit_score_cases (users : List Nat) (store : List ScoreRecord)
    (uid : Nat) (moves now : Int) (hm : 1 ≤ moves) (hu : uid ∈ users) :
    (store.find? (fun r => r.userId == uid) = none →
      submitScore users store uid moves now =
        (.ok ⟨moves, now, true⟩, store ++ [⟨uid, moves, now⟩])) ∧
    (∀ ex, store.find? (fun r => r.userId == uid) = some ex →
      (moves < ex.moves →
        submitScore users store uid moves now =
          (.ok ⟨moves, now, true⟩, updateFirst store uid moves now) ∧
        (updateFirst store uid moves now).find? (fun r => r.userId == uid) =
          some ⟨uid, moves, now⟩) ∧
      (ex.moves ≤ moves →
        submitScore users store uid moves now =
          (.ok ⟨ex.moves, ex.completedAt, false⟩, store))) := by
  have hval : ¬(moves = 0 ∨ moves < 1) := by omega
  refine ⟨fun hnone => ?_, fun ex hex => ⟨fun hlt => ⟨?_, ?_⟩, fun hge => ?_⟩⟩
  · simp [submitScore, hval, hu, hnone]
  · simp [submitScore, hval, hu, hex, hlt]
  · exact find?_updateFirst store uid moves now ex hex
  · simp [submitScore, hval, hu, hex, not_lt.mpr hge]

/-- Witness for C1 at a concrete input: an improving resubmission updates the
stored record. -/
theorem C1_submit_score_cases_witness :
    submitScore [7] [⟨7, 10, 100⟩] 7 5 200 =
      (.ok ⟨5, 200, true⟩, updateFirst [⟨7, 10, 100⟩] 7 5 200) ∧
    (updateFirst [⟨7, 10, 100⟩] 7 5 200).find? (fun r => r.userId == 7) =
      some ⟨7, 5, 200⟩ :=
  ((C1_submit_score_cases [7] [⟨7, 10, 100⟩] 7 5 200 (by decide) (by decide)).2
    ⟨7, 10, 100⟩ (by decide)).1 (by decide)

/-- A stored score document with the move count kept as an arbitrary JSON
number, in exact rational semantics: neither the handler guard nor the
mongoose schema (`type: Number, min: 1`) requires integrality. -/
structure ScoreRecordQ where
  userId : Nat
  moves : ℚ
  completedAt : Int
deriving DecidableEq, Repr

/-- Response body of a score submission over the full JSON number domain. -/
structure ScoreRespQ where
  moves : ℚ
  completedAt : Int
  improved : Bool
deriving DecidableEq, Repr

/-- Outcome of `POST /api/scores` over the full JSON number domain. -/
inductive SubmitResultQ where
  | validationError
  | notFound
  | ok (resp : ScoreRespQ)
deriving DecidableEq, Repr

/-- In-place update of the found score document, rational payload. -/
def updateFirstQ : List ScoreRecordQ → Nat → ℚ → Int → List ScoreRecordQ
  | [], _, _, _ => []
  | r :: rs, uid, m, t =>
    if r.userId = uid then { r with moves := m, completedAt := t } :: rs
    else r :: updateFirstQ rs uid m t

/-- Handler of `POST /api/scores` with the `moves` payload as an arbitrary
JSON number (exact rational semantics): the guard `!moves || moves < 1` is
`moves = 0 ∨ moves < 1` (`0` and `NaN` are falsy), and no integrality check
exists anywhere on this path or in the schema. -/
def submitScoreQ (users : List Nat) (store : List ScoreRecordQ) (uid : Nat)
    (moves : ℚ) (now : Int) : SubmitResultQ × List ScoreRecordQ :=
  if moves = 0 ∨ moves < 1 then (.validationError, store)
  else if uid ∉ users then (.notFound, store)
  else
    match store.find? (fun r => r.userId == uid) with
    | some existingScore =>
      if moves < existingScore.moves then
        (.ok ⟨moves, now, true⟩, updateFirstQ store uid moves now)
      else
        (.ok ⟨existingScore.moves, existingScore.completedAt, false⟩, store)
    | none => (.ok ⟨moves, now, true⟩, store ++ [⟨uid, moves, now⟩])

/-- Run a sequence of score submissions (`(uid, moves, now)` triples)
against the store, threading the store through. -/
def runSubmitsQ (users : List Nat) :
    List (Nat × ℚ × Int) → List ScoreRecordQ → List ScoreRecordQ
  | [], store => store
  | (uid, m, t) :: ops, store =>
    runSubmitsQ users ops (submitScoreQ users store uid m t).2

theorem mem_updateFirstQ (store : List ScoreRecordQ) (uid : Nat) (m : ℚ)
    (t : Int) : ∀ r ∈ updateFirstQ store uid m t, r ∈ store ∨ r.moves = m := by
  induction store with
  | nil => simp [updateFirstQ]
  | cons x xs ih =>
    intro r hr
    by_cases hx : x.userId = uid
    · rw [updateFirstQ, if_pos hx] at hr
      rcases List.mem_cons.mp hr with h | h
      · right; rw [h]
      · left; exact List.mem_cons_of_mem _ h
    · rw [updateFirstQ, if_neg hx] at hr
      rcases List.mem_cons.mp hr with h | h
      · left; rw [h]; exact List.mem_cons_self _ _
      · rcases ih r h with h2 | h2
        · left; exact List.mem_cons_of_mem _ h2
        · right; exact h2

theorem submitQ_preserves_one_le (users : List Nat)
    (store : List ScoreRecordQ) (uid : Nat) (m : ℚ) (t : Int)
    (hs : ∀ r ∈ store, 1 ≤ r.moves) :
    ∀ r ∈ (submitScoreQ users store uid m t).2, 1 ≤ r.moves := by
  intro r hr
  rw [submitScoreQ] at hr
  split at hr
  · exact hs r hr
  · rename_i hval
    have hm : 1 ≤ m := by push_neg at hval; exact hval.2
    split at hr
    · exact hs r hr
    · split at hr
      · split at hr
        · rcases mem_updateFirstQ store uid m t r hr with h | h
          · exact hs r h
          · rw [h]; exact hm
        · exact hs r hr
      · rcases List.mem_append.mp hr with h | h
        · exact hs r h
        · have hr2 : r = ⟨uid, m, t⟩ := List.mem_singleton.mp h
          rw [hr2]
          exact hm

/-- C6 counterexample.  The payload `3/2` (JS `1.5`) passes the
`!moves || moves < 1` guard (it is truthy and not below 1) and the schema
`min: 1`, and is stored unchanged; the stored moves value has denominator 2,
and a rational is an integer exactly when its denominator is 1
(`Rat.den_eq_one_iff`), so the stored value is not an integer — refuting the
claimed integrality of every stored moves value. -/
theorem C6_counterexample :
    submitScoreQ [7] [] 7 (3 / 2) 100 =
      (.ok ⟨3 / 2, 100, true⟩, [⟨7, 3 / 2, 100⟩]) ∧
    ((3 : ℚ) / 2).den ≠ 1 := by
  constructor
  · rw [submitScoreQ, if_neg (by norm_num), if_neg (by simp)]
    rfl
  · intro h1
    have hn : ((((3 : ℚ) / 2).num : ℚ)) = (3 : ℚ) / 2 :=
      (Rat.den_eq_one_iff _).mp h1
    have h3 : (3 : ℚ) = 2 * (((3 : ℚ) / 2).num : ℚ) := by
      field_simp at hn
      linarith
    have h4 : (3 : ℤ) = 2 * ((3 : ℚ) / 2).num := by exact_mod_cast h3
    omega

/-- C6 (amended: integrality is not enforced — a non-integer numeric payload
such as 1.5 passes the validation guard and the schema `min: 1` and is
stored as-is; what the code guarantees is the lower bound).  A submission
with `moves < 1` is rejected with the 400 validation error before touching
the store, and every record of a store produced from the empty store by any
sequence of submissions has `moves ≥ 1`. -/
theorem C6_moves_ge_one_invariant (users : List Nat) :
    (∀ (store : List ScoreRecordQ) (uid : Nat) (moves : ℚ) (now : Int),
      moves < 1 →
      submitScoreQ users store uid moves now = (.validationError, store)) ∧
    (∀ ops, ∀ r ∈ runSubmitsQ users ops [], 1 ≤ r.moves) := by
  constructor
  · intro store uid moves now hlt
    rw [submitScoreQ, if_pos (Or.inr hlt)]
  · have main : ∀ ops (store : List ScoreRecordQ),
        (∀ r ∈ store, 1 ≤ r.moves) →
        ∀ r ∈ runSubmitsQ users ops store, 1 ≤ r.moves := by
      intro ops
      induction ops with
      | nil => intro store hs; simpa [runSubmitsQ] using hs
      | cons op rest ih =>
        intro store hs
        obtain ⟨uid, m, t⟩ := op
        exact ih _ (submitQ_preserves_one_le users store uid m t hs)
    intro ops
    exact main ops [] (by simp)

/-- Witness for C6 at a concrete input: submitting `0` moves is rejected and
leaves the store unchanged. -/
theorem C6_moves_ge_one_invariant_witness :
    submitScoreQ [7] [⟨7, 10, 100⟩] 7 0 200 =
      (.validationError, [⟨7, 10, 100⟩]) :=
  (C6_moves_ge_one_invariant [7]).1 [⟨7, 10, 100⟩] 7 0 200 (by norm_num)

/-! ### Puzzle state machine (`frontend/src/App.js`) -/

/-- Fixed starting layout of the 3×3 board (`initialGrid` in `App.js`). -/
def initialGrid : List Nat := [3, 6, 4, 2, 5, 8, 1, 7, 9]

/-- Winning layout (`targetGrid` in `App.js`). -/
def targetGrid : List Nat := [1, 2, 3, 4, 5, 6, 7, 8, 9]

/-- React state of the game component: the board, the move counter, the
currently selected square (board indices are 0–8) and the win flag. -/
structure GameState where
  grid : List Nat
  moves : Nat
  selectedSquare : Option (Fin 9)
  gameWon : Bool
deriving DecidableEq, Repr

/-- Session-start state of the component. -/
def initState : GameState := ⟨initialGrid, 0, none, false⟩

/-- Predicate `isAdjacent` from `App.js`: the two linear indices name cells that differ
by exactly one row with equal column, or exactly one column with equal row
(`row = floor(index / 3)`, `col = index mod 3`). -/
def isAdjacent (index1 index2 : Nat) : Bool :=
  let row1 : Int := (index1 : Int) / 3
  let col1 : Int := (index1 : Int) % 3
  let row2 : Int := (index2 : Int) / 3
  let col2 : Int := (index2 : Int) % 3
  ((row1 - row2).natAbs == 1 && col1 == col2) ||
  ((col1 - col2).natAbs == 1 && row1 == row2)

/-- The array-destructuring swap
`[newGrid[a], newGrid[b]] = [newGrid[b], newGrid[a]]` from `App.js`: both
right-hand values are read from the original list before the writes. -/
def listSwap (l : List Nat) (a b : Nat) : List Nat :=
  (l.set a (l.getD b 0)).set b (l.getD a 0)

/-- Click handler `handleSquareClick` from `App.js`.  Besides the successor state it
returns the list of move counts handed to `submitScore` during the click
(the completion emission); the call happens only when a user is logged in
(`if (currentUser) await submitScore(moves + 1)`). -/
def handleSquareClick (loggedIn : Bool) (s : GameState) (index : Fin 9) :
    GameState × List Nat :=
  if s.gameWon then (s, [])
  else
    match s.selectedSquare with
    | none => ({ s with selectedSquare := some index }, [])
    | some sel =>
      if sel = index then ({ s with selectedSquare := none }, [])
      else if isAdjacent sel.val index.val then
        let newGrid := listSwap s.grid sel.val index.val
        if newGrid = targetGrid then
          ({ grid := newGrid, moves := s.moves + 1, selectedSquare := none,
             gameWon := true },
           if loggedIn then [s.moves + 1] else [])
        else
          ({ grid := newGrid, moves := s.moves + 1, selectedSquare := none,
             gameWon := s.gameWon }, [])
      else ({ s with selectedSquare := some index }, [])

/-- Reset handler `resetGame` from `App.js`: restore the initial board, zero the move
counter, clear the selection and the win flag. -/
def resetGame : GameState := ⟨initialGrid, 0, none, false⟩

/-- Run a sequence of clicks, accumulating the submitted move counts. -/
def runClicks (loggedIn : Bool) : List (Fin 9) → GameState → GameState × List Nat
  | [], s => (s, [])
  | i :: is, s =>
    let step := handleSquareClick loggedIn s i
    let rest := runClicks loggedIn is step.1
    (rest.1, step.2 ++ rest.2)

/-- A user interaction with the puzzle: a board click or the reset button. -/
inductive GameOp where
  | click (i : Fin 9)
  | reset
deriving DecidableEq, Repr

/-- Apply one interaction to the component state. -/
def applyOp (loggedIn : Bool) (s : GameState) : GameOp → GameState
  | .click i => (handleSquareClick loggedIn s i).1
  | .reset => resetGame

/-- Run a sequence of interactions. -/
def runOps (loggedIn : Bool) : List GameOp → GameState → GameState
  | [], s => s
  | op :: ops, s => runOps loggedIn ops (applyOp loggedIn s op)

/-- A click sequence that solves the puzzle from `initialGrid` in 16 swaps
(each adjacent swap is a select click followed by a swap click). -/
def solveClicks : List (Fin 9) :=
  [3, 6, 0, 3, 3, 6, 3, 4, 1, 4, 6, 7, 4, 7, 3, 4,
   4, 5, 4, 7, 4, 5, 1, 2, 0, 1, 0, 3, 0, 1, 1, 2]

/-- C8.  In a solved state every further click is a no-op on the whole
component state (and in particular on grid, move count and win flag), and
the reset operation restores the unsolved initial configuration. -/
theorem C8_solved_frozen_until_reset (b : Bool) (s : GameState) (i : Fin 9)
    (h : s.gameWon = true) :
    handleSquareClick b s i = (s, []) ∧
    resetGame = { grid := initialGrid, moves := 0, selectedSquare := none,
                  gameWon := false } := by
  refine ⟨?_, rfl⟩
  rw [handleSquareClick, if_pos h]

/-- Witness for C8 at a concrete solved state. -/
theorem C8_solved_frozen_until_reset_witness :
    handleSquareClick true ⟨targetGrid, 16, none, true⟩ 0 =
      (⟨targetGrid, 16, none, true⟩, []) ∧
    resetGame = { grid := initialGrid, moves := 0, selectedSquare := none,
                  gameWon := false } :=
  C8_solved_frozen_until_reset true ⟨targetGrid, 16, none, true⟩ 0 rfl

/-- C10.  A single click leaves the move counter unchanged or increments it
by exactly one; it is incremented exactly when the state is unsolved and the
click lands on a square adjacent to (and different from) the current
selection; only reset returns the counter to zero. -/
theorem C10_move_counter_step (b : Bool) (s : GameState) (i : Fin 9) :
    ((handleSquareClick b s i).1.moves = s.moves ∨
      (handleSquareClick b s i).1.moves = s.moves + 1) ∧
    ((handleSquareClick b s i).1.moves = s.moves + 1 ↔
      s.gameWon = false ∧ ∃ j : Fin 9, s.selectedSquare = some j ∧ j ≠ i ∧
        isAdjacent j.val i.val = true) ∧
    resetGame.moves = 0 := by
  refine ⟨?_, ?_, rfl⟩ <;>
  · by_cases hw : s.gameWon
    · simp [handleSquareClick, hw]
    · cases hsel : s.selectedSquare with
      | none => simp [handleSquareClick, hw, hsel]
      | some j =>
        by_cases hji : j = i
        · simp [handleSquareClick, hw, hsel, hji]
        · by_cases hadj : isAdjacent j.val i.val
          · by_cases hwin : listSwap s.grid j.val i.val = targetGrid
            · simp [handleSquareClick, hw, hsel, hji, hadj, hwin]
            · simp [handleSquareClick, hw, hsel, hji, hadj, hwin]
          · simp [handleSquareClick, hw, hsel, hji, hadj]

theorem getD_set_self : ∀ (l : List Nat) (a : Nat) (y : Nat), a < l.length →
    (l.set a y).getD a 0 = y := by
  intro l
  induction l with
  | nil => intro a y h; simp at h
  | cons x xs ih =>
    intro a y h
    cases a with
    | zero => rfl
    | succ a => exact ih a y (by simpa using h)

theorem getD_set_ne : ∀ (l : List Nat) (a b : Nat) (y : Nat), a ≠ b →
    (l.set a y).getD b 0 = l.getD b 0 := by
  intro l
  induction l with
  | nil => intro a b y _; simp
  | cons x xs ih =>
    intro a b y hab
    cases a with
    | zero =>
      cases b with
      | zero => exact absurd rfl hab
      | succ b => rfl
    | succ a =>
      cases b with
      | zero => rfl
      | succ b => exact ih a b y (by omega)

theorem cons_set_perm (x : Nat) : ∀ (xs : List Nat) (j : Nat), j < xs.length →
    List.Perm (xs.getD j 0 :: xs.set j x) (x :: xs) := by
  intro xs
  induction xs with
  | nil => intro j h; simp at h
  | cons y ys ih =>
    intro j h
    cases j with
    | zero => simpa using List.Perm.swap x y ys
    | succ j =>
      have hj : j < ys.length := by simpa using h
      have step1 : List.Perm (ys.getD j 0 :: y :: ys.set j x)
          (y :: ys.getD j 0 :: ys.set j x) := List.Perm.swap y (ys.getD j 0) _
      have step2 : List.Perm (y :: ys.getD j 0 :: ys.set j x) (y :: x :: ys) :=
        (ih j hj).cons y
      have step3 : List.Perm (y :: x :: ys) (x :: y :: ys) :=
        List.Perm.swap x y ys
      simpa using (step1.trans step2).trans step3

theorem listSwap_perm : ∀ (l : List Nat) (a b : Nat), a < l.length →
    b < l.length → List.Perm (listSwap l a b) l := by
  intro l
  induction l with
  | nil => intro a b ha _; simp at ha
  | cons x xs ih =>
    intro a b ha hb
    match a, b with
    | 0, 0 => simp [listSwap]
    | 0, Nat.succ b =>
      have hb' : b < xs.length := by simpa using hb
      simpa [listSwap] using cons_set_perm x xs b hb'
    | Nat.succ a, 0 =>
      have ha' : a < xs.length := by simpa using ha
      simpa [listSwap] using cons_set_perm x xs a ha'
    | Nat.succ a, Nat.succ b =>
      have ha' : a < xs.length := by simpa using ha
      have hb' : b < xs.length := by simpa using hb
      simpa [listSwap] using (ih a b ha' hb').cons x

theorem click_preserves_perm (b : Bool) (s : GameState) (i : Fin 9)
    (h : List.Perm s.grid targetGrid) :
    List.Perm (handleSquareClick b s i).1.grid targetGrid := by
  have hlen : s.grid.length = 9 := by rw [h.length_eq]; rfl
  by_cases hw : s.gameWon
  · simpa [handleSquareClick, hw] using h
  · cases hsel : s.selectedSquare with
    | none => simpa [handleSquareClick, hw, hsel] using h
    | some j =>
      by_cases hji : j = i
      · simpa [handleSquareClick, hw, hsel, hji] using h
      · by_cases hadj : isAdjacent j.val i.val
        · have hswap : List.Perm (listSwap s.grid j.val i.val) s.grid :=
            listSwap_perm s.grid j.val i.val (by rw [hlen]; exact j.isLt)
              (by rw [hlen]; exact i.isLt)
          by_cases hwin : listSwap s.grid j.val i.val = targetGrid
          · simp [handleSquareClick, hw, hsel, hji, hadj, hwin]
          · simpa [handleSquareClick, hw, hsel, hji, hadj, hwin]
              using hswap.trans h
        · simpa [handleSquareClick, hw, hsel, hji, hadj] using h

/-- C9.  From session start, any sequence of clicks and resets leaves the
grid a permutation of the values 1 through 9 (the target layout lists
exactly those values). -/
theorem C9_grid_always_permutation (b : Bool) (ops : List GameOp) :
    List.Perm (runOps b ops initState).grid targetGrid := by
  have main : ∀ (ops : List GameOp) (s : GameState),
      List.Perm s.grid targetGrid →
      List.Perm (runOps b ops s).grid targetGrid := by
    intro ops
    induction ops with
    | nil => intro s hs; simpa [runOps] using hs
    | cons op rest ih =>
      intro s hs
      cases op with
      | click i => exact ih _ (click_preserves_perm b s i hs)
      | reset =>
        refine ih _ ?_
        show List.Perm resetGame.grid targetGrid
        decide
  exact main ops initState (by decide)

/-- C3 counterexample.  The claim quantifies over every state with no cell
selected; a solved state (reached here by actually solving the puzzle) has
no cell selected, yet the two adjacent clicks `0` then `1` change nothing:
the move counter stays at 16 instead of incrementing and the grid is not
swapped. -/
theorem C3_counterexample :
    isAdjacent 0 1 = true ∧ (0 : Fin 9) ≠ 1 ∧
    (runClicks true solveClicks initState).1.selectedSquare = none ∧
    (handleSquareClick true
        (handleSquareClick true (runClicks true solveClicks initState).1 0).1
        1).1 =
      (runClicks true solveClicks initState).1 ∧
    (runClicks true solveClicks initState).1.moves = 16 := by decide

/-- C3 (amended: the starting state is additionally required to be
unsolved).  From an unsolved state with no selection and a board of nine
cells, clicking `i` then an adjacent distinct `j` swaps the values at `i`
and `j`, leaves every other cell unchanged, increments the move counter by
exactly one, and clears the selection. -/
theorem C3_adjacent_swap (b : Bool) (s : GameState) (i j : Fin 9)
    (hw : s.gameWon = false) (hsel : s.selectedSquare = none) (hij : i ≠ j)
    (hadj : isAdjacent i.val j.val = true) (hlen : s.grid.length = 9) :
    ((handleSquareClick b (handleSquareClick b s i).1 j).1.grid =
        listSwap s.grid i.val j.val ∧
      (handleSquareClick b (handleSquareClick b s i).1 j).1.moves =
        s.moves + 1 ∧
      (handleSquareClick b (handleSquareClick b s i).1 j).1.selectedSquare =
        none) ∧
    (listSwap s.grid i.val j.val).getD i.val 0 = s.grid.getD j.val 0 ∧
    (listSwap s.grid i.val j.val).getD j.val 0 = s.grid.getD i.val 0 ∧
    ∀ k : Fin 9, k ≠ i → k ≠ j →
      (listSwap s.grid i.val j.val).getD k.val 0 = s.grid.getD k.val 0 := by
  have hvij : i.val ≠ j.val := fun hv => hij (Fin.ext hv)
  have h1 : handleSquareClick b s i = ({ s with selectedSquare := some i }, []) := by
    simp [handleSquareClick, hw, hsel]
  constructor
  · rw [h1]
    by_cases hwin : listSwap s.grid i.val j.val = targetGrid
    · simp [handleSquareClick, hw, hij, hadj, hwin]
    · simp [handleSquareClick, hw, hij, hadj, hwin]
  · refine ⟨?_, ?_, ?_⟩
    · rw [listSwap, getD_set_ne _ _ _ _ (Ne.symm hvij),
        getD_set_self _ _ _ (by omega)]
    · rw [listSwap, getD_set_self _ _ _ (by simp; omega)]
    · intro k hki hkj
      have h1 : i.val ≠ k.val := fun hv => hki (Fin.ext hv.symm)
      have h2 : j.val ≠ k.val := fun hv => hkj (Fin.ext hv.symm)
      rw [listSwap, getD_set_ne _ _ _ _ h2, getD_set_ne _ _ _ _ h1]

/-- Witness for C3 at a concrete input: from the fresh session state,
clicking 3 then 6 charges exactly one move. -/
theorem C3_adjacent_swap_witness :
    (handleSquareClick true (handleSquareClick true initState 3).1 6).1.moves =
      initState.moves + 1 :=
  (C3_adjacent_swap true initState 3 6 rfl rfl (by decide) (by decide)
    rfl).1.2.1

theorem click_step (b : Bool) (s : GameState) (i : Fin 9)
    (h : s.gameWon = true ↔ s.grid = targetGrid) (hw : s.gameWon = false) :
    ((handleSquareClick b s i).1.gameWon = true ↔
      (handleSquareClick b s i).1.grid = targetGrid) ∧
    ((handleSquareClick b s i).1.gameWon = false →
      (handleSquareClick b s i).2 = []) ∧
    ((handleSquareClick b s i).1.gameWon = true →
      (handleSquareClick b s i).2 =
        (if b then [(handleSquareClick b s i).1.moves] else [])) := by
  have hne : ¬s.grid = targetGrid := fun hg => by
    rw [h.mpr hg] at hw; cases hw
  cases hsel : s.selectedSquare with
  | none => simp [handleSquareClick, hw, hsel, hne]
  | some j =>
    by_cases hji : j = i
    · simp [handleSquareClick, hw, hsel, hji, hne]
    · by_cases hadj : isAdjacent j.val i.val
      · by_cases hwin : listSwap s.grid j.val i.val = targetGrid
        · simp [handleSquareClick, hw, hsel, hji, hadj, hwin]
        · simp [handleSquareClick, hw, hsel, hji, hadj, hwin]
      · simp [handleSquareClick, hw, hsel, hji, hadj, hne]

theorem runClicks_spec (b : Bool) : ∀ (cs : List (Fin 9)) (s : GameState),
    (s.gameWon = true ↔ s.grid = targetGrid) →
    ((runClicks b cs s).1.gameWon = true ↔
      (runClicks b cs s).1.grid = targetGrid) ∧
    (s.gameWon = true → runClicks b cs s = (s, [])) ∧
    (s.gameWon = false → (runClicks b cs s).2 =
      (if (runClicks b cs s).1.gameWon = true
       then (if b then [(runClicks b cs s).1.moves] else []) else [])) := by
  intro cs
  induction cs with
  | nil =>
    intro s h
    refine ⟨h, fun _ => rfl, fun hf => ?_⟩
    simp [runClicks, hf]
  | cons i is ih =>
    intro s h
    by_cases hw : s.gameWon
    · have hstep : handleSquareClick b s i = (s, []) := by
        rw [handleSquareClick, if_pos hw]
      have heq : runClicks b (i :: is) s = runClicks b is s := by
        simp [runClicks, hstep]
      have hrest := ih s h
      refine ⟨by rw [heq]; exact hrest.1, fun _ => ?_, fun hf => ?_⟩
      · rw [heq]; exact hrest.2.1 hw
      · rw [hf] at hw; cases hw
    · have hwf : s.gameWon = false := by simpa using hw
      have hstep := click_step b s i h hwf
      have heq : runClicks b (i :: is) s =
          ((runClicks b is (handleSquareClick b s i).1).1,
           (handleSquareClick b s i).2 ++
             (runClicks b is (handleSquareClick b s i).1).2) := by
        simp [runClicks]
      have hrest := ih (handleSquareClick b s i).1 hstep.1
      refine ⟨by rw [heq]; exact hrest.1, fun ht => ?_, fun _ => ?_⟩
      · rw [ht] at hwf; cases hwf
      · by_cases hw1 : (handleSquareClick b s i).1.gameWon
        · have hfrozen := hrest.2.1 hw1
          have hval := hstep.2.2 hw1
          rw [heq, hfrozen, hval]
          simp [hw1]
        · have hw1f : (handleSquareClick b s i).1.gameWon = false := by
            simpa using hw1
          have hempty := hstep.2.1 hw1f
          have htail := hrest.2.2 hw1f
          rw [heq, hempty, htail]
          simp

/-- C7 counterexample.  In a guest session (no logged-in user) the solving
sequence reaches the solved state but nothing is ever emitted: the final
move count is not submitted even once. -/
theorem C7_counterexample :
    (runClicks false solveClicks initState).1.gameWon = true ∧
    (runClicks false solveClicks initState).1.grid = targetGrid ∧
    (runClicks false solveClicks initState).2 = [] := by decide

/-- C7 (amended: the emission happens in a session with a logged-in user;
guest sessions emit nothing).  For every click sequence from the initial
grid, the solved flag is set exactly when the grid equals the target
configuration (every prefix of a run is itself a run, so the flag is never
set earlier), and in a logged-in session the final move count — including
the winning swap — is emitted exactly once, at the winning click. -/
theorem C7_win_detection_and_emission (cs : List (Fin 9)) :
    ((runClicks true cs initState).1.gameWon = true ↔
      (runClicks true cs initState).1.grid = targetGrid) ∧
    (runClicks true cs initState).2 =
      (if (runClicks true cs initState).1.gameWon = true
       then [(runClicks true cs initState).1.moves] else []) := by
  have h0 : initState.gameWon = true ↔ initState.grid = targetGrid := by decide
  have h := runClicks_spec true cs initState h0
  refine ⟨h.1, ?_⟩
  simpa using h.2.2 rfl

/-! ### Leaderboard ranker (`GET /api/leaderboard`, `GET /api/user/score`) -/

/-- Ordering used by the leaderboard aggregation
(`$sort: { moves: 1, completedAt: 1 }`): moves ascending, ties broken by
completedAt ascending. -/
def scoreLE (a b : ScoreRecord) : Prop :=
  a.moves < b.moves ∨ (a.moves = b.moves ∧ a.completedAt ≤ b.completedAt)

instance : DecidableRel scoreLE := fun a b => by
  unfold scoreLE; exact inferInstance

instance : IsTotal ScoreRecord scoreLE := ⟨fun a b => by unfold scoreLE; omega⟩

instance : IsTrans ScoreRecord scoreLE :=
  ⟨fun a b c => by unfold scoreLE; omega⟩

/-- The sorted view of the score collection produced by the aggregation
pipeline, realised by a deterministic (stable) sort. -/
def sortScores (store : List ScoreRecord) : List ScoreRecord :=
  List.insertionSort scoreLE store

/-- Leaderboard entry returned by `GET /api/leaderboard`; the player id
stands in for the joined player name/email. -/
structure LBEntry where
  rank : Nat
  userId : Nat
  moves : Int
  completedAt : Int
deriving DecidableEq, Repr

/-- Rank attachment `leaderboard.map((entry, index) => ({ rank: skip + index + 1, ... }))`
from `server.js`, with `k` the skip offset. -/
def rankFrom : Nat → List ScoreRecord → List LBEntry
  | _, [] => []
  | k, r :: rs => ⟨k + 1, r.userId, r.moves, r.completedAt⟩ :: rankFrom (k + 1) rs

/-- The aggregation pipeline of `GET /api/leaderboard` for a valid window:
sort, `$skip`, `$limit`, then attach ranks. -/
def leaderboardPage (store : List ScoreRecord) (skip limit : Nat) :
    List LBEntry :=
  rankFrom skip (((sortScores store).drop skip).take limit)

theorem rankFrom_length : ∀ (k : Nat) (l : List ScoreRecord),
    (rankFrom k l).length = l.length := by
  intro k l
  induction l generalizing k with
  | nil => rfl
  | cons r rs ih => simp [rankFrom, ih]

theorem rankFrom_get : ∀ (l : List ScoreRecord) (k i : Nat)
    (h : i < (rankFrom k l).length) (h2 : i < l.length),
    (rankFrom k l).get ⟨i, h⟩ =
      ⟨k + i + 1, (l.get ⟨i, h2⟩).userId, (l.get ⟨i, h2⟩).moves,
       (l.get ⟨i, h2⟩).completedAt⟩ := by
  intro l
  induction l with
  | nil => intro k i h h2; simp at h2
  | cons r rs ih =>
    intro k i h h2
    cases i with
    | zero => rfl
    | succ i =>
      have harith : k + 1 + i + 1 = k + (i + 1) + 1 := by omega
      have := ih (k + 1) i (by simpa [rankFrom] using h) (by simpa using h2)
      simpa [rankFrom, harith] using this

/-- C2.  The leaderboard is the sorted view of all score records (moves
ascending, ties by completedAt ascending), and for any requested window the
entry at output position `i` is the record at global sorted position
`skip + i` carrying rank `skip + i + 1` — its 1-based position in the global
ordering, independent of the pagination window. -/
theorem C2_leaderboard_order_and_rank (store : List ScoreRecord)
    (skip limit : Nat) :
    List.Sorted scoreLE (sortScores store) ∧
    List.Perm (sortScores store) store ∧
    ∀ i (h : i < (leaderboardPage store skip limit).length),
      ∃ h2 : skip + i < (sortScores store).length,
        (leaderboardPage store skip limit).get ⟨i, h⟩ =
          ⟨skip + i + 1, ((sortScores store).get ⟨skip + i, h2⟩).userId,
           ((sortScores store).get ⟨skip + i, h2⟩).moves,
           ((sortScores store).get ⟨skip + i, h2⟩).completedAt⟩ := by
  refine ⟨List.sorted_insertionSort scoreLE store,
    List.perm_insertionSort scoreLE store, ?_⟩
  intro i h
  have hi : i < (((sortScores store).drop skip).take limit).length := by
    simpa [leaderboardPage, rankFrom_length] using h
  have h2 : skip + i < (sortScores store).length := by
    rw [List.length_take, List.length_drop] at hi
    omega
  refine ⟨h2, ?_⟩
  have hrec : (((sortScores store).drop skip).take limit).get ⟨i, hi⟩ =
      (sortScores store).get ⟨skip + i, h2⟩ := by
    rw [List.get_eq_getElem, List.get_eq_getElem, List.getElem_take,
      List.getElem_drop]
  unfold leaderboardPage
  rw [rankFrom_get _ skip i h hi, hrec]

/-- Witness for C2 at a concrete input: with three records, the single entry
of the window `skip = 1, limit = 2` carries rank 2. -/
theorem C2_leaderboard_order_and_rank_witness :
    ((leaderboardPage [(⟨1, 20, 9⟩ : ScoreRecord), ⟨2, 10, 5⟩, ⟨3, 10, 7⟩]
        1 2).get ⟨0, by decide⟩).rank = 2 := by
  obtain ⟨h2, heq⟩ :=
    (C2_leaderboard_order_and_rank
      [(⟨1, 20, 9⟩ : ScoreRecord), ⟨2, 10, 5⟩, ⟨3, 10, 7⟩] 1 2).2.2 0
      (by decide)
  rw [heq]

/-- JS `parseInt(q) || d` on a query parameter: `q` is the parse result
(`none` for an absent or unparseable parameter); the default `d` is used
when the parse yields `NaN` or the falsy `0`. -/
def parseIntOr (q : Option Int) (d : Int) : Int :=
  match q with
  | none => d
  | some v => if v = 0 then d else v

/-- Ceiling division `Math.ceil(a / b)` on integers: the exact ceiling of the rational
quotient, for a nonzero divisor. -/
def ceilDivInt (a b : Int) : Int := -((-a).fdiv b)

/-- Pagination metadata block of the leaderboard reply. -/
structure Pagination where
  currentPage : Int
  totalPages : Int
  totalScores : Nat
  hasNext : Bool
  hasPrev : Bool
deriving DecidableEq, Repr

/-- Handler of `GET /api/leaderboard`: parse `limit` and `page` with their
defaults, compute `skip = (page - 1) * limit`, and serve the ranked window
plus metadata.  The storage aggregation rejects a negative `$skip` or a
non-positive `$limit` (a 500 reply, modelled as `none`). -/
def getLeaderboard (store : List ScoreRecord) (qlimit qpage : Option Int) :
    Option (List LBEntry × Pagination) :=
  let limit := parseIntOr qlimit 50
  let page := parseIntOr qpage 1
  let skip := (page - 1) * limit
  if 0 ≤ skip ∧ 1 ≤ limit then
    some (leaderboardPage store skip.toNat limit.toNat,
          ⟨page, ceilDivInt (store.length : Int) limit, store.length,
           decide (page * limit < (store.length : Int)), decide (1 < page)⟩)
  else none

theorem ceilDivInt_bounds (a b : Int) (hb : 1 ≤ b) :
    a ≤ ceilDivInt a b * b ∧ (ceilDivInt a b - 1) * b < a := by
  have hb0 : (0 : Int) ≤ b := by omega
  have hnn : 0 ≤ -a % b := Int.emod_nonneg (-a) (by omega)
  have hlt : -a % b < b := Int.emod_lt_of_pos (-a) (by omega)
  have key : ceilDivInt a b * b = a + -a % b := by
    unfold ceilDivInt
    rw [Int.fdiv_eq_ediv (-a) hb0]
    linear_combination (-1 : Int) * Int.ediv_add_emod (-a) b
  have expand : (ceilDivInt a b - 1) * b = ceilDivInt a b * b - b := by ring
  generalize hC : ceilDivInt a b * b = C at key expand ⊢
  rw [expand]
  omega

theorem leaderboardPage_length_le (store : List ScoreRecord)
    (skip limit : Nat) : (leaderboardPage store skip limit).length ≤ limit := by
  unfold leaderboardPage
  rw [rankFrom_length, List.length_take]
  omega

/-- C4 counterexample.  A `limit` query that parses to the negative number
`-5` is parseable but not as a positive number, so by the claim the default
50 should apply; the code instead keeps `-5` (and the storage aggregation
then rejects the window). -/
theorem C4_counterexample :
    parseIntOr (some (-5)) 50 = -5 ∧ parseIntOr (some (-5)) 50 ≠ 50 ∧
    getLeaderboard [] (some (-5)) none = none := by decide

/-- C4 (amended: the defaults apply when the parameter is absent,
unparseable, or parses to `0`; a negative parse is kept as-is and the
storage aggregation then rejects the window).  For positively parsed `page`
and `limit` the served window is the ranked slice starting at
`skip = (page-1)*limit` with at most `limit` entries, and the metadata
satisfies `currentPage = page`,
`totalPages = ceil(totalScores/limit)` (characterised by its bounds),
`totalScores`, `hasNext = page*limit < totalScores`, `hasPrev = page > 1`. -/
theorem C4_pagination_defaults_and_metadata (store : List ScoreRecord)
    (ql qp : Option Int) :
    (parseIntOr none 50 = 50 ∧ parseIntOr none 1 = 1 ∧
      parseIntOr (some 0) 50 = 50 ∧ parseIntOr (some 0) 1 = 1 ∧
      (∀ v : Int, v ≠ 0 → parseIntOr (some v) 50 = v ∧
        parseIntOr (some v) 1 = v)) ∧
    (1 ≤ parseIntOr ql 50 → 1 ≤ parseIntOr qp 1 →
      getLeaderboard store ql qp =
        some (leaderboardPage store
                ((parseIntOr qp 1 - 1) * parseIntOr ql 50).toNat
                (parseIntOr ql 50).toNat,
              ⟨parseIntOr qp 1,
               ceilDivInt (store.length : Int) (parseIntOr ql 50),
               store.length,
               decide (parseIntOr qp 1 * parseIntOr ql 50 <
                 (store.length : Int)),
               decide (1 < parseIntOr qp 1)⟩) ∧
      (leaderboardPage store
          ((parseIntOr qp 1 - 1) * parseIntOr ql 50).toNat
          (parseIntOr ql 50).toNat).length ≤ (parseIntOr ql 50).toNat ∧
      ((store.length : Int) ≤
          ceilDivInt (store.length : Int) (parseIntOr ql 50) *
            parseIntOr ql 50 ∧
        (ceilDivInt (store.length : Int) (parseIntOr ql 50) - 1) *
            parseIntOr ql 50 < (store.length : Int)) ∧
      (decide (parseIntOr qp 1 * parseIntOr ql 50 <
          (store.length : Int)) = true ↔
        parseIntOr qp 1 * parseIntOr ql 50 < (store.length : Int)) ∧
      (decide (1 < parseIntOr qp 1) = true ↔ 1 < parseIntOr qp 1)) := by
  constructor
  · refine ⟨rfl, rfl, rfl, rfl, fun v hv => ⟨?_, ?_⟩⟩ <;>
      simp [parseIntOr, hv]
  · intro hl hp
    have hskip : 0 ≤ (parseIntOr qp 1 - 1) * parseIntOr ql 50 :=
      mul_nonneg (by omega) (by omega)
    refine ⟨?_, leaderboardPage_length_le store _ _,
      ceilDivInt_bounds (store.length : Int) (parseIntOr ql 50) hl,
      by simp, by simp⟩
    rw [getLeaderboard]
    simp only [if_pos (And.intro hskip hl)]

/-- Witness for C4 at a concrete input: with one record and no query
parameters, the defaults serve page 1 with limit 50. -/
theorem C4_pagination_defaults_and_metadata_witness :
    getLeaderboard [(⟨1, 10, 5⟩ : ScoreRecord)] none none =
      some ([⟨1, 1, 10, 5⟩], ⟨1, 1, 1, false, false⟩) := by
  rw [((C4_pagination_defaults_and_metadata [(⟨1, 10, 5⟩ : ScoreRecord)]
    none none).2 (by decide) (by decide)).1]
  decide

/-- Strictly-better predicate from the `$or` counting query of
`GET /api/user/score`: fewer moves, or equal moves with earlier
completion. -/
def strictlyBetter (r s : ScoreRecord) : Prop :=
  r.moves < s.moves ∨ (r.moves = s.moves ∧ r.completedAt < s.completedAt)

instance : DecidableRel strictlyBetter := fun r s => by
  unfold strictlyBetter; exact inferInstance

/-- Reply of `GET /api/user/score` for a player who has a score. -/
structure UserScoreResp where
  moves : Int
  completedAt : Int
  rank : Nat
deriving DecidableEq, Repr

/-- Handler of `GET /api/user/score`: `none` models `hasScore: false`;
otherwise the rank is 1 plus the number of strictly better records. -/
def getUserScore (store : List ScoreRecord) (uid : Nat) :
    Option UserScoreResp :=
  match store.find? (fun r => r.userId == uid) with
  | none => none
  | some score =>
    some ⟨score.moves, score.completedAt,
      (store.filter (fun r => decide (strictlyBetter r score))).length + 1⟩

/-- Rank that the full leaderboard assigns to the player's entry: the rank
field of the first entry carrying the player's id in the complete ranked
view (window `skip = 0`, `limit` = collection size). -/
def leaderboardRankOf (store : List ScoreRecord) (uid : Nat) : Option Nat :=
  ((leaderboardPage store 0 store.length).find?
    (fun e => e.userId == uid)).map (fun e => e.rank)

theorem rankFrom_append : ∀ (k : Nat) (u v : List ScoreRecord),
    rankFrom k (u ++ v) = rankFrom k u ++ rankFrom (k + u.length) v := by
  intro k u
  induction u generalizing k with
  | nil => intro v; simp [rankFrom]
  | cons x xs ih =>
    intro v
    have harith : k + 1 + xs.length = k + (xs.length + 1) := by omega
    simp [rankFrom, ih (k + 1) v, harith]

theorem mem_rankFrom : ∀ (k : Nat) (u : List ScoreRecord) (e : LBEntry),
    e ∈ rankFrom k u → ∃ r ∈ u, e.userId = r.userId := by
  intro k u
  induction u generalizing k with
  | nil => intro e he; simp [rankFrom] at he
  | cons x xs ih =>
    intro e he
    rw [rankFrom] at he
    rcases List.mem_cons.mp he with h | h
    · exact ⟨x, List.mem_cons_self x xs, by rw [h]⟩
    · obtain ⟨r, hr, hre⟩ := ih (k + 1) e h
      exact ⟨r, List.mem_cons_of_mem x hr, hre⟩

/-- C5 counterexample.  Two players tied on both moves and completedAt:
`GET /api/user/score` gives the second player rank 1 (no record is strictly
better), while the leaderboard lists its entry at position 2 with rank 2. -/
theorem C5_counterexample :
    getUserScore [(⟨1, 10, 5⟩ : ScoreRecord), ⟨2, 10, 5⟩] 2 =
      some ⟨10, 5, 1⟩ ∧
    leaderboardRankOf [(⟨1, 10, 5⟩ : ScoreRecord), ⟨2, 10, 5⟩] 2 = some 2 ∧
    ¬((getUserScore [(⟨1, 10, 5⟩ : ScoreRecord), ⟨2, 10, 5⟩] 2).map
        (fun r => r.rank) =
      leaderboardRankOf [(⟨1, 10, 5⟩ : ScoreRecord), ⟨2, 10, 5⟩] 2) := by
  decide

/-- C5 (amended: the agreement additionally requires that no other record
ties with the player's record on both moves and completedAt; the store is
assumed to hold exactly one record for the player, which is the ledger's
one-record-per-player invariant).  Under these hypotheses the rank computed
by `GET /api/user/score` equals the rank the leaderboard assigns to the
player's entry. -/
theorem C5_rank_agreement (store : List ScoreRecord) (uid : Nat)
    (s : ScoreRecord)
    (hfind : store.find? (fun r => r.userId == uid) = some s)
    (huniq : store.countP (fun r => r.userId == uid) = 1)
    (hnotie : ∀ r ∈ store, r.userId ≠ uid →
      ¬(r.moves = s.moves ∧ r.completedAt = s.completedAt)) :
    leaderboardRankOf store uid =
      (getUserScore store uid).map (fun r => r.rank) := by
  have hsuid : s.userId = uid := by simpa using List.find?_some hfind
  have hsmem : s ∈ store := List.mem_of_find?_eq_some hfind
  set l := sortScores store with hldef
  have hperm : List.Perm l store := List.perm_insertionSort scoreLE store
  have hsort : List.Sorted scoreLE l := List.sorted_insertionSort scoreLE store
  have hlen : l.length = store.length := hperm.length_eq
  have hsl : s ∈ l := hperm.mem_iff.mpr hsmem
  obtain ⟨l₁, l₂, hsplit⟩ := List.append_of_mem hsl
  have hp_s : (s.userId == uid) = true := by simp [hsuid]
  have hcount : l.countP (fun r => r.userId == uid) = 1 := by
    rw [hperm.countP_eq (fun r => r.userId == uid)]; exact huniq
  have hcount' : l₁.countP (fun r => r.userId == uid) +
      (l₂.countP (fun r => r.userId == uid) + 1) = 1 := by
    rw [hsplit, List.countP_append, List.countP_cons, hp_s] at hcount
    simpa using hcount
  have hc1 : l₁.countP (fun r => r.userId == uid) = 0 := by omega
  have hc2 : l₂.countP (fun r => r.userId == uid) = 0 := by omega
  have hno1 : ∀ x ∈ l₁, x.userId ≠ uid := by
    intro x hx
    simpa using List.countP_eq_zero.mp hc1 x hx
  have hno2 : ∀ y ∈ l₂, y.userId ≠ uid := by
    intro y hy
    simpa using List.countP_eq_zero.mp hc2 y hy
  have hsortsplit : List.Sorted scoreLE (l₁ ++ s :: l₂) := hsplit ▸ hsort
  have hparts := List.pairwise_append.mp hsortsplit
  have hx_le_s : ∀ x ∈ l₁, scoreLE x s :=
    fun x hx => hparts.2.2 x hx s (List.mem_cons_self s l₂)
  have hs_le_y : ∀ y ∈ l₂, scoreLE s y :=
    fun y hy => (List.pairwise_cons.mp hparts.2.1).1 y hy
  have hmem_store : ∀ x : ScoreRecord, x ∈ l₁ ∨ x ∈ l₂ → x ∈ store := by
    intro x hx
    apply hperm.mem_iff.mp
    rw [hsplit]
    rcases hx with h | h
    · exact List.mem_append.mpr (Or.inl h)
    · exact List.mem_append.mpr (Or.inr (List.mem_cons_of_mem _ h))
  have hq1 : ∀ x ∈ l₁, decide (strictlyBetter x s) = true := by
    intro x hx
    have hle := hx_le_s x hx
    have hne := hnotie x (hmem_store x (Or.inl hx)) (hno1 x hx)
    unfold scoreLE at hle
    unfold strictlyBetter
    simp only [decide_eq_true_eq]
    omega
  have hq2 : ∀ y ∈ l₂, decide (strictlyBetter y s) = false := by
    intro y hy
    have hle := hs_le_y y hy
    have hne := hnotie y (hmem_store y (Or.inr hy)) (hno2 y hy)
    unfold scoreLE at hle
    unfold strictlyBetter
    simp only [decide_eq_false_iff_not]
    omega
  have hqs : decide (strictlyBetter s s) = false := by
    unfold strictlyBetter; simp
  have hbetter : store.countP (fun r => decide (strictlyBetter r s)) =
      l₁.length := by
    rw [← hperm.countP_eq (fun r => decide (strictlyBetter r s))]
    rw [hsplit, List.countP_append, List.countP_cons, hqs,
      List.countP_eq_length.mpr hq1,
      List.countP_eq_zero.mpr (fun a ha => by simp [hq2 a ha])]
    simp
  have hright : (getUserScore store uid).map (fun r => r.rank) =
      some (l₁.length + 1) := by
    simp only [getUserScore, hfind, Option.map_some]
    rw [← List.countP_eq_length_filter, hbetter]
    rfl
  have hpage : leaderboardPage store 0 store.length = rankFrom 0 l := by
    unfold leaderboardPage
    rw [List.drop_zero, ← hldef, ← hlen, List.take_length]
  have hrank_append : rankFrom 0 l =
      rankFrom 0 l₁ ++ rankFrom l₁.length (s :: l₂) := by
    rw [hsplit, rankFrom_append]
    simp
  have hfind1 : (rankFrom 0 l₁).find? (fun e => e.userId == uid) = none := by
    rw [List.find?_eq_none]
    intro e he
    obtain ⟨r, hr, hre⟩ := mem_rankFrom 0 l₁ e he
    simp [hre, hno1 r hr]
  have hfind2 : (rankFrom l₁.length (s :: l₂)).find?
      (fun e => e.userId == uid) =
      some ⟨l₁.length + 1, s.userId, s.moves, s.completedAt⟩ := by
    rw [rankFrom, List.find?_cons_of_pos _ (by simpa using hp_s)]
  unfold leaderboardRankOf
  rw [hpage, hrank_append, List.find?_append, hfind1, hfind2, hright]
  simp

/-- Witness for C5 at a concrete input: two untied records; player 1's
rank agrees between the two endpoints. -/
theorem C5_rank_agreement_witness :
    leaderboardRankOf [(⟨1, 10, 5⟩ : ScoreRecord), ⟨2, 12, 6⟩] 1 =
      (getUserScore [(⟨1, 10, 5⟩ : ScoreRecord), ⟨2, 12, 6⟩] 1).map
        (fun r => r.rank) :=
  C5_rank_agreement [(⟨1, 10, 5⟩ : ScoreRecord), ⟨2, 12, 6⟩] 1 ⟨1, 10, 5⟩
    (by decide) (by decide) (by decide)

end GraphGame
